import Mathlib

/-!
Verification of the dependahunt vulnerability-resolution matching engine.

This file is a shallow embedding of the core logic of the repository:
- `version_utils.py` (`compare_versions` with its nested `parse_version`,
  `version_in_range`),
- `github_api.py` (the pure matching loop of
  `find_cves_by_package_and_version`, `has_cve_section`,
  `format_cve_section`, the body computation of `add_cve_info_to_pr`),
- `markers.py` (`_Marker.create` / `exists_in` / `extract`, with the two
  regular expressions modelled operationally),
- `risk_assessment.py` (the keyword fallback ladder of
  `extract_risk_from_ai_analysis`),
- `config.py` (`CVE_INFO_MARKER`).

Python exceptions are modelled with `Except Unit` (a raised `ValueError` /
`KeyError` is `.error ()`); Python `None` is `Option.none`; `str` is
`String` / `List Char`.  Python's `\s` and `str.strip()` whitespace is
modelled as ASCII whitespace, and `int(...)` / code-point string
comparison are modelled for ASCII digits / arbitrary code points, which
covers every input appearing in the repository and in the claims.
-/

/-! ## Basic character/string utilities -/

/-- ASCII whitespace, modelling Python's `\s` character class and
`str.strip()` (restricted to ASCII). -/
def isWs (c : Char) : Bool :=
  c = ' ' || c = '\t' || c = '\n' || c = '\r' || c = '\x0b' || c = '\x0c'

/-- Python `s.strip()` on a character list: remove leading and trailing
whitespace. -/
def pyStrip (l : List Char) : List Char :=
  ((l.dropWhile isWs).reverse.dropWhile isWs).reverse

/-- Python `s.split(sep)` for a one-character separator `sep`:
the result is never empty, and `"".split(sep) == ['']`. -/
def splitOnChar (sep : Char) : List Char → List (List Char)
  | [] => [[]]
  | c :: rest =>
    match splitOnChar sep rest with
    | [] => if c = sep then [[], []] else [[c]]
    | y :: ys => if c = sep then [] :: y :: ys else (c :: y) :: ys

/-- Python `needle in hay` substring test. -/
def containsSub (hay needle : List Char) : Bool :=
  hay.tails.any (fun t => needle.isPrefixOf t)

/-- Python code-point comparison of strings (`s1 < s2`): lexicographic on
code points, a proper prefix is smaller. -/
def pyStrLt : List Char → List Char → Bool
  | [], [] => false
  | [], _ :: _ => true
  | _ :: _, [] => false
  | a :: as, b :: bs =>
    if a.toNat < b.toNat then true
    else if b.toNat < a.toNat then false
    else pyStrLt as bs

/-- Digit run of Python `int(...)`: ASCII digits with single underscores
allowed between digits (`int("1_0") == 10`, `int("1__0")` and
`int("_1")`, `int("1_")` raise). Returns `none` on failure. -/
def pyDigitsAux (acc : Nat) : List Char → Option Nat
  | [] => some acc
  | c :: rest =>
    if c.isDigit then pyDigitsAux (acc * 10 + (c.toNat - 48)) rest
    else if c = '_' then
      match rest with
      | d :: rest2 =>
        if d.isDigit then pyDigitsAux (acc * 10 + (d.toNat - 48)) rest2
        else none
      | [] => none
    else none

/-- Nonempty digit run (see `pyDigitsAux`). -/
def pyDigits : List Char → Option Nat
  | [] => none
  | c :: rest => if c.isDigit then pyDigitsAux (c.toNat - 48) rest else none

/-- Python `int(text)` on a string: strip whitespace, optional sign,
digit run; `none` models a raised `ValueError`. -/
def pyInt (l : List Char) : Option Int :=
  match pyStrip l with
  | '+' :: r => (pyDigits r).map (fun n => (n : Int))
  | '-' :: r => (pyDigits r).map (fun n => -(n : Int))
  | r => (pyDigits r).map (fun n => (n : Int))

/-! ## version_utils.py : compare_versions / parse_version -/

/-- `[int(x) for x in main_version.split('.')]` — `none` models the
`ValueError` raised by `int` on any component. -/
def parseNums : List (List Char) → Option (List Int)
  | [] => some []
  | x :: rest =>
    match pyInt x with
    | none => none
    | some n => (parseNums rest).map (fun ns => n :: ns)

/-- The nested `parse_version` helper of `compare_versions`
(version_utils.py lines 68-77): split on `-` into numeric core and
optional prerelease tag (`parts[1]`, further `-`-parts are dropped),
split the core on `.` and convert each component with `int`. -/
def parse_versionL (v : List Char) : Option (List Int × Option (List Char)) :=
  match splitOnChar '-' v with
  | [] => none -- unreachable: splitOnChar never returns []
  | mainv :: rest =>
    (parseNums (splitOnChar '.' mainv)).map (fun nums => (nums, rest.head?))

/-- `parse_version` on a `String`. -/
def parse_version (v : String) : Option (List Int × Option (List Char)) :=
  parse_versionL v.data

/-- The component-wise loop `for n1, n2 in zip(v1_parts, v2_parts)`
(version_utils.py lines 88-92); both lists have been padded to equal
length by the caller. -/
def cmpMain : List Int → List Int → Int
  | a :: as, b :: bs =>
    if a < b then -1 else if a > b then 1 else cmpMain as bs
  | _, _ => 0

/-- The prerelease tie-break (version_utils.py lines 95-108): a release
(no tag) orders after a prerelease; two tags compare as Python strings. -/
def cmpPre : Option (List Char) → Option (List Char) → Int
  | none, none => 0
  | none, some _ => 1
  | some _, none => -1
  | some p, some q =>
    if pyStrLt p q then -1 else if pyStrLt q p then 1 else 0

/-- `compare_versions` (version_utils.py lines 56-108) on character
lists: parse both versions (a parse failure raises, modelled as
`.error ()`), zero-pad the shorter numeric part, compare component-wise,
then apply the prerelease rule. -/
def compareVerL (v1 v2 : List Char) : Except Unit Int :=
  match parse_versionL v1, parse_versionL v2 with
  | some (p1, pre1), some (p2, pre2) =>
    let maxLen := max p1.length p2.length
    let a := p1 ++ List.replicate (maxLen - p1.length) 0
    let b := p2 ++ List.replicate (maxLen - p2.length) 0
    let m := cmpMain a b
    .ok (if m = 0 then cmpPre pre1 pre2 else m)
  | _, _ => .error ()

/-- `compare_versions` on `String`s. -/
def compare_versions (v1 v2 : String) : Except Unit Int :=
  compareVerL v1.data v2.data

/-! ## version_utils.py : version_in_range -/

/-- The condition loop of `version_in_range` (version_utils.py lines
124-147): each already-stripped condition is checked for the operators
`>=`, `<=`, `>`, `<`, `=` in that order; an unrecognized condition is
skipped; reaching the end yields `True`.  A `ValueError` raised by
`compare_versions` propagates (`.error ()`). -/
def checkConds (version : List Char) : List (List Char) → Except Unit Bool
  | [] => .ok true
  | condition :: rest =>
    if [ '>', '=' ].isPrefixOf condition then
      match compareVerL version (pyStrip (condition.drop 2)) with
      | .error e => .error e
      | .ok c => if c < 0 then .ok false else checkConds version rest
    else if [ '<', '=' ].isPrefixOf condition then
      match compareVerL version (pyStrip (condition.drop 2)) with
      | .error e => .error e
      | .ok c => if c > 0 then .ok false else checkConds version rest
    else if [ '>' ].isPrefixOf condition then
      match compareVerL version (pyStrip (condition.drop 1)) with
      | .error e => .error e
      | .ok c => if c ≤ 0 then .ok false else checkConds version rest
    else if [ '<' ].isPrefixOf condition then
      match compareVerL version (pyStrip (condition.drop 1)) with
      | .error e => .error e
      | .ok c => if c ≥ 0 then .ok false else checkConds version rest
    else if [ '=' ].isPrefixOf condition then
      match compareVerL version (pyStrip (condition.drop 1)) with
      | .error e => .error e
      | .ok c => if c ≠ 0 then .ok false else checkConds version rest
    else checkConds version rest

/-- `version_in_range` (version_utils.py lines 111-147): split the range
on commas, strip each condition, check all conditions conjunctively. -/
def version_in_range (version range_str : String) : Except Unit Bool :=
  checkConds version.data ((splitOnChar ',' range_str.data).map pyStrip)

/-- The operator detection of the condition loop (version_utils.py lines
126-145), factored out: for a stripped condition bearing one of the
recognized operators (checked in the source's `if`/`elif` order, the
two-character operators first), the operand text that `compare_versions`
would be called on; `none` for an unrecognized condition. -/
def condOperand (condition : List Char) : Option (List Char) :=
  if [ '>', '=' ].isPrefixOf condition then some (pyStrip (condition.drop 2))
  else if [ '<', '=' ].isPrefixOf condition then some (pyStrip (condition.drop 2))
  else if [ '>' ].isPrefixOf condition then some (pyStrip (condition.drop 1))
  else if [ '<' ].isPrefixOf condition then some (pyStrip (condition.drop 1))
  else if [ '=' ].isPrefixOf condition then some (pyStrip (condition.drop 1))
  else none

instance {ε α : Type} [DecidableEq ε] [DecidableEq α] : DecidableEq (Except ε α) :=
  fun a b =>
  match a, b with
  | .error x, .error y =>
    if h : x = y then isTrue (by rw [h])
    else isFalse (fun c => h (Except.error.inj c))
  | .ok x, .ok y =>
    if h : x = y then isTrue (by rw [h])
    else isFalse (fun c => h (Except.ok.inj c))
  | .error _, .ok _ => isFalse (fun c => Except.noConfusion c)
  | .ok _, .error _ => isFalse (fun c => Except.noConfusion c)

-- sanity checks against the spec's concrete examples
example : compare_versions "4.17.20" "4.17.21" = .ok (-1) := by decide
example : compare_versions "1.2" "1.2.0" = .ok 0 := by decide
example : compare_versions "1.0.0-alpha" "1.0.0" = .ok (-1) := by decide
example : version_in_range "4.17.20" ">=4.0.0,<4.17.21" = .ok true := by decide
example : version_in_range "4.17.21" ">=4.0.0,<4.17.21" = .ok false := by decide
example : version_in_range "1.0.0" ">=abc" = .error () := by decide
example : version_in_range "not a version" "^1.2.3" = .ok true := by decide

/-! ## github_api.py : find_cves_by_package_and_version (matching core)

The network fetch and the `print` logging are external glue; the embedding
covers the loop over the fetched `alerts` list.  Optional JSON fields are
modelled as `Option`; `identifiers` and `vulnerabilities` that are absent
behave exactly like empty lists in the source (both lead to `continue`),
so they are modelled as lists, except that `identifier['value']` is a
direct subscript whose `KeyError` propagates, hence `value : Option`. -/

/-- One element of `alert['security_advisory']['identifiers']`. -/
structure Identifier where
  idType : Option String -- identifier.get('type')
  value : Option String -- identifier['value'] (a missing key raises)
deriving DecidableEq

/-- One element of `alert['security_advisory']['vulnerabilities']`. -/
structure Vulnerability where
  packageName : Option String -- vuln.get('package', {}).get('name')
  vulnerable_version_range : String -- vuln.get('vulnerable_version_range', '')
  first_patched_version : Option String -- first_patched_version object's .get('identifier', '')
deriving DecidableEq

/-- One Dependabot alert as consumed by the matching loop. -/
structure Alert where
  packageName : Option String -- alert['dependency']['package'].get('name', ''); none when the keys are absent
  number : Int -- alert.get('number', 0)
  html_url : String -- alert.get('html_url', '')
  identifiers : List Identifier -- [] when security_advisory/identifiers are absent
  vulnerabilities : List Vulnerability -- [] when absent (same behaviour: no vuln matches)
deriving DecidableEq

/-- Collect the CVE ids of one alert (github_api.py lines 95-99):
`identifier['value']` for every identifier with `type == 'CVE'`; a
missing `value` key raises `KeyError` (`.error ()`). -/
def collectAlertCves : List Identifier → Except Unit (List String)
  | [] => .ok []
  | i :: rest =>
    if i.idType = some "CVE" then
      match i.value with
      | none => .error ()
      | some v => (collectAlertCves rest).map (fun r => v :: r)
    else collectAlertCves rest

/-- The deduplicating append (github_api.py lines 134-137): a triple
already present in the accumulated result is not re-added. -/
def addCves (cves : List String) (number : Int) (url : String)
    (acc : List (String × Int × String)) : List (String × Int × String) :=
  cves.foldl
    (fun acc cve =>
      if (cve, number, url) ∈ acc then acc else acc ++ [(cve, number, url)])
    acc

/-- The inner loop over `alert['security_advisory']['vulnerabilities']`
(github_api.py lines 108-138). -/
def processVulns (package_name from_version to_version : String)
    (cves : List String) (number : Int) (url : String) :
    List Vulnerability → List (String × Int × String) →
    Except Unit (List (String × Int × String))
  | [], acc => .ok acc
  | vuln :: rest, acc =>
    if vuln.packageName ≠ some package_name then
      processVulns package_name from_version to_version cves number url rest acc
    else if vuln.vulnerable_version_range = "" then
      processVulns package_name from_version to_version cves number url rest acc
    else
      match version_in_range from_version vuln.vulnerable_version_range with
      | .error e => .error e
      | .ok false =>
        processVulns package_name from_version to_version cves number url rest acc
      | .ok true =>
        match vuln.first_patched_version with
        | none =>
          processVulns package_name from_version to_version cves number url rest acc
        | some patched_version =>
          if patched_version = "" then
            processVulns package_name from_version to_version cves number url rest acc
          else
            match compare_versions to_version patched_version with
            | .error e => .error e
            | .ok c =>
              if c < 0 then
                processVulns package_name from_version to_version cves number url rest acc
              else
                processVulns package_name from_version to_version cves number url rest
                  (addCves cves number url acc)

/-- The outer loop over the fetched alerts (github_api.py lines 76-138). -/
def processAlerts (package_name from_version to_version : String) :
    List Alert → List (String × Int × String) →
    Except Unit (List (String × Int × String))
  | [], acc => .ok acc
  | alert :: rest, acc =>
    match alert.packageName with
    | none => processAlerts package_name from_version to_version rest acc
    | some alert_package =>
      if alert_package ≠ package_name then
        processAlerts package_name from_version to_version rest acc
      else
        match collectAlertCves alert.identifiers with
        | .error e => .error e
        | .ok alert_cves =>
          if alert_cves.isEmpty then
            processAlerts package_name from_version to_version rest acc
          else
            match processVulns package_name from_version to_version alert_cves
                alert.number alert.html_url alert.vulnerabilities acc with
            | .error e => .error e
            | .ok acc2 => processAlerts package_name from_version to_version rest acc2

/-- `find_cves_by_package_and_version` (github_api.py lines 34-157),
restricted to its pure matching core over the already-fetched alert
list.  The enclosing `try/except` catches every exception raised during
the scan and returns the empty list. -/
def find_cves_by_package_and_version (package_name from_version to_version : String)
    (alerts : List Alert) : List (String × Int × String) :=
  match processAlerts package_name from_version to_version alerts [] with
  | .ok r => r
  | .error _ => []

/-- The advisory used in the spec's lodash example. -/
def lodashAlert (alertId : Int) (alertUrl : String) : Alert :=
  { packageName := some "lodash"
    number := alertId
    html_url := alertUrl
    identifiers := [{ idType := some "CVE", value := some "CVE-2021-23337" }]
    vulnerabilities :=
      [{ packageName := some "lodash"
         vulnerable_version_range := ">=4.0.0,<4.17.21"
         first_patched_version := some "4.17.21" }] }

example :
    find_cves_by_package_and_version "lodash" "4.17.20" "4.17.21" [lodashAlert 7 "u"] =
      [("CVE-2021-23337", 7, "u")] := by decide
example :
    find_cves_by_package_and_version "lodash" "4.17.20" "4.17.20" [lodashAlert 7 "u"] = [] := by
  decide
example :
    find_cves_by_package_and_version "lodash" "5.0.0" "4.17.21" [lodashAlert 7 "u"] = [] := by
  decide

/-- A lodash advisory whose vulnerable range has an unparseable operand,
so that the range check raises during the scan. -/
def badRangeAlert (alertId : Int) (alertUrl : String) : Alert :=
  { packageName := some "lodash"
    number := alertId
    html_url := alertUrl
    identifiers := [{ idType := some "CVE", value := some "CVE-2021-23337" }]
    vulnerabilities :=
      [{ packageName := some "lodash"
         vulnerable_version_range := ">=abc"
         first_patched_version := some "4.17.21" }] }

/-! ## config.py / github_api.py : CVE section append flow -/

/-- `CVE_INFO_MARKER` (config.py line 11). -/
def CVE_INFO_MARKER : String := "<!-- CVE_INFO_ADDED -->"

/-- `has_cve_section` (github_api.py lines 204-206): substring test. -/
def has_cve_section (pr_body : String) : Bool :=
  containsSub pr_body.data CVE_INFO_MARKER.data

/-- `defaultdict(list)` grouping step of `format_cve_section`: append the
pair to an existing key's list, or add a new key at the end (Python
dicts preserve insertion order). -/
def addToGroups (g : List (String × List (Int × String))) (cve : String)
    (p : Int × String) : List (String × List (Int × String)) :=
  match g with
  | [] => [(cve, [p])]
  | (k, ps) :: rest =>
    if k = cve then (k, ps ++ [p]) :: rest else (k, ps) :: addToGroups rest cve p

/-- Stable insertion preserving Python `sorted` order (ascending, `lt`
strict). -/
def insertSorted (lt : α → α → Bool) (x : α) : List α → List α
  | [] => [x]
  | y :: ys => if lt x y then x :: y :: ys else y :: insertSorted lt x ys

/-- Python `sorted(l)` with strict comparison `lt`. -/
def pySorted (lt : α → α → Bool) (l : List α) : List α :=
  l.foldr (insertSorted lt) []

/-- Python `<` on `(int, str)` pairs. -/
def pairLt (a b : Int × String) : Bool :=
  if a.1 < b.1 then true
  else if a.1 = b.1 then pyStrLt a.2.data b.2.data
  else false

/-- `format_cve_section` (github_api.py lines 209-244): group the triples
by CVE id (keeping only pairs with a positive alert number and nonempty
URL), and render one sorted line per CVE. -/
def format_cve_section (cve_info_list : List (String × Int × String)) : String :=
  if cve_info_list.isEmpty then ""
  else
    let groups := cve_info_list.foldl
      (fun g x =>
        if x.2.1 > 0 && x.2.2 ≠ "" then addToGroups g x.1 (x.2.1, x.2.2) else g)
      []
    let unique_cve_count := groups.length
    let sortedGroups := pySorted (fun a b => pyStrLt a.1.data b.1.data) groups
    let renderLine := fun (kv : String × List (Int × String)) =>
      let alerts := pySorted pairLt kv.2
      "- **" ++ kv.1 ++ "** " ++
        (if alerts.isEmpty then "\n"
         else
           "(Dependabot Alert " ++
             String.intercalate ", "
               (alerts.map (fun p => "[#" ++ toString p.1 ++ "](" ++ p.2 ++ ")")) ++
             ")\n")
    "\n\n---\n\n" ++ CVE_INFO_MARKER ++ "\n\n" ++
      "## 🔒 検出されたCVE (" ++ toString unique_cve_count ++ "件)\n\n" ++
      String.join (sortedGroups.map renderLine)

/-- The document produced by `add_cve_info_to_pr` (github_api.py lines
274-305), with the `update_pr_body` network write replaced by returning
the new body: if the marker is already present the body is left
untouched; with no CVE info only the bare marker is appended; otherwise
the formatted CVE section is appended. -/
def add_cve_info_to_pr_body (pr_body : String)
    (cve_info_list : List (String × Int × String)) : String :=
  if has_cve_section pr_body then pr_body
  else if cve_info_list.isEmpty then
    pr_body ++ "\n\n" ++ CVE_INFO_MARKER ++ "\n"
  else pr_body ++ format_cve_section cve_info_list

/-! ## risk_assessment.py : keyword fallback ladder -/

/-- The keyword fallback of `extract_risk_from_ai_analysis`
(risk_assessment.py lines 142-186): reached when no structured header
matched, no failure marker was found and no conclusion section was
extracted; an ordered chain of substring checks from lowest to highest
severity determines `risk_level` (initialised to `"未評価"`). -/
def fallback_risk_level (ai_analysis : String) : String :=
  let has := fun (kw : String) => containsSub ai_analysis.data kw.data
  if has "極低" || has "ゼロリスク" || has "ほぼゼロ" || has "🟢 **極低リスク" then
    "極低リスク"
  else if has "**低**" || has "低リスク" || has "リスクレベル「低」" ||
      has "リスクレベル：低" || has "LOW" then
    "低リスク"
  else if has "**中**" || has "中リスク" || has "リスクレベル「中」" ||
      has "リスクレベル：中" || has "MEDIUM" || has "CVSS 5." || has "CVSS 6." then
    "中リスク"
  else if has "**高**" || has "高リスク" || has "リスクレベル「高」" ||
      has "リスクレベル：高" || has "HIGH" || has "CVSS 7." then
    "高リスク"
  else if has "Critical" || has "critical" || has "🚨 Critical" || has "緊急" ||
      has "CVSS 9." || has "CVSS 8." then
    "Critical（緊急）"
  else "未評価"

example : fallback_risk_level "低リスク and Critical" = "低リスク" := by decide
example : fallback_risk_level "Critical" = "Critical（緊急）" := by decide

/-! ## markers.py : JSON payload model

`_Marker.create` serialises a payload dict with `json.dumps(data,
ensure_ascii=False)` and `_Marker.extract` parses it back with
`json.loads`.  The payload is modelled as an ordered string-to-string
mapping; `jsonDumps` produces Python's exact compact object format
(`{"k": "v", "k2": "v2"}` with `", "` and `": "` separators, escaping
`"` and `\`), and `jsonLoads` accepts exactly that format (anything else
models a raised `json.JSONDecodeError`). -/

/-- An ordered string-to-string JSON object (a Python dict payload). -/
abbrev Payload := List (List Char × List Char)

/-- `json.dumps` escaping of one character (`"` and `\`). -/
def escList : List Char → List Char
  | [] => []
  | c :: rest =>
    if c = '"' then '\\' :: '"' :: escList rest
    else if c = '\\' then '\\' :: '\\' :: escList rest
    else c :: escList rest

/-- Rendering of one `"key": "value"` pair after its opening quote. -/
def dumpPairTail (k v : List Char) : List Char :=
  escList k ++ ('"' :: ':' :: ' ' :: '"' :: (escList v ++ ['"']))

/-- Rendering of a nonempty payload after the opening quote of its first
key, up to and including the closing `}`. -/
def entriesBody : Payload → List Char
  | [] => []
  | (k, v) :: rest =>
    dumpPairTail k v ++
      (match rest with
       | [] => ['}']
       | _ :: _ => ',' :: ' ' :: '"' :: entriesBody rest)

/-- `json.dumps(data, ensure_ascii=False)` for a string-to-string dict. -/
def jsonDumps (p : Payload) : List Char :=
  match p with
  | [] => [ '{', '}' ]
  | _ :: _ => '{' :: '"' :: entriesBody p

/-- String-body scanner of `jsonLoads`: reads characters after an opening
quote up to the closing quote, resolving `\"` and `\\` escapes; `esc`
records that a backslash was just read. -/
def parseStrSM (esc : Bool) : List Char → Option (List Char × List Char)
  | [] => none
  | c :: rest =>
    if esc then
      if c = '"' || c = '\\' then
        (parseStrSM false rest).map (fun sr => (c :: sr.1, sr.2))
      else none
    else if c = '\\' then parseStrSM true rest
    else if c = '"' then some ([], rest)
    else (parseStrSM false rest).map (fun sr => (c :: sr.1, sr.2))

/-- Pair-sequence scanner of `jsonLoads`, entered after the opening quote
of a key; `fuel` bounds the number of pairs (any value at least the pair
count gives the same result). -/
def parsePairs : Nat → List Char → Option (Payload × List Char)
  | 0, _ => none
  | fuel + 1, l =>
    match parseStrSM false l with
    | none => none
    | some (k, r1) =>
      match r1 with
      | ':' :: ' ' :: '"' :: r2 =>
        match parseStrSM false r2 with
        | none => none
        | some (v, r3) =>
          match r3 with
          | ',' :: ' ' :: '"' :: r4 =>
            match parsePairs fuel r4 with
            | none => none
            | some (ps, r5) => some ((k, v) :: ps, r5)
          | '}' :: r4 => some ([(k, v)], r4)
          | _ => none
      | _ => none

/-- `json.loads` on a marker payload, for the compact object format
produced by `jsonDumps`; `none` models a raised `JSONDecodeError`. -/
def jsonLoads (l : List Char) : Option Payload :=
  match l with
  | '{' :: '}' :: rest2 => if rest2.all isWs then some [] else none
  | '{' :: '"' :: rest2 =>
    match parsePairs (rest2.length + 1) rest2 with
    | none => none
    | some (ps, rest3) => if rest3.all isWs then some ps else none
  | _ => none

/-- `json.loads` with the raised `JSONDecodeError` made explicit. -/
def jsonLoadsE (l : List Char) : Except String Payload :=
  match jsonLoads l with
  | some d => .ok d
  | none => .error "JSONDecodeError"

example : jsonLoads (jsonDumps [("a".data, "b".data)]) = some [("a".data, "b".data)] := by
  decide
example : jsonLoads "\x7boops".data = none := by decide

/-! ## markers.py : the two marker regular expressions

`_build_pattern` (markers.py lines 43-55) produces
`<!--\s+TAG\s+([^\n]+?)\s*-->` (with data) and `<!--\s+TAG\s+-->`
(bare).  The matchers below implement Python `re.search` semantics for
these two patterns operationally: leftmost match position, greedy `\s+`
with backtracking (in continuation-passing style), lazy `[^\n]+?`
capture, and deterministic `\s*` before the literal `-->`. -/

/-- Greedy `\s+` already holding one whitespace character: prefer
consuming more whitespace, backtracking into the continuation `k`. -/
def wsPlusGreedy (k : List Char → Option α) : List Char → Option α
  | [] => k []
  | c :: rest =>
    if isWs c then
      match wsPlusGreedy k rest with
      | some r => some r
      | none => k (c :: rest)
    else k (c :: rest)

/-- `\s+` followed by the continuation `k`. -/
def wsPlusThen (k : List Char → Option α) : List Char → Option α
  | [] => none
  | c :: rest => if isWs c then wsPlusGreedy k rest else none

/-- Lazy `([^\n]+?)` capture: try the shortest nonempty capture first,
extending one non-newline character at a time; `k` receives the capture
and the remaining input. -/
def lazyCapture (k : List Char → List Char → Option α) (acc : List Char) :
    List Char → Option α
  | [] => none
  | c :: rest =>
    if c = '\n' then none
    else
      match k (acc ++ [c]) rest with
      | some r => some r
      | none => lazyCapture k (acc ++ [c]) rest

/-- `\s*-->` after the capture: since `-` is not whitespace this is
deterministic — skip maximal whitespace, then require the literal. -/
def arrowK (cap rest : List Char) : Option (List Char) :=
  if [ '-', '-', '>' ].isPrefixOf (rest.dropWhile isWs) then some cap else none

/-- Match of the data pattern `<!--\s+TAG\s+([^\n]+?)\s*-->` anchored at
the start of `s`, returning the capture. -/
def matchDataAt (tag : List Char) (s : List Char) : Option (List Char) :=
  if [ '<', '!', '-', '-' ].isPrefixOf s then
    wsPlusThen
      (fun s1 =>
        if tag.isPrefixOf s1 then
          wsPlusThen (fun s3 => lazyCapture arrowK [] s3) (s1.drop tag.length)
        else none)
      (s.drop 4)
  else none

/-- `re.search` of the data pattern: leftmost matching position wins. -/
def searchData (tag : List Char) : List Char → Option (List Char)
  | [] => none
  | c :: rest =>
    match matchDataAt tag (c :: rest) with
    | some cap => some cap
    | none => searchData tag rest

/-- Match of the bare pattern `<!--\s+TAG\s+-->` anchored at the start
of `s`. -/
def matchBareAt (tag : List Char) (s : List Char) : Bool :=
  if [ '<', '!', '-', '-' ].isPrefixOf s then
    (wsPlusThen
        (fun s1 =>
          if tag.isPrefixOf s1 then
            wsPlusThen
              (fun s3 => if [ '-', '-', '>' ].isPrefixOf s3 then some () else none)
              (s1.drop tag.length)
          else none)
        (s.drop 4)).isSome
  else false

/-- `re.search` of the bare pattern. -/
def searchBare (tag : List Char) : List Char → Bool
  | [] => false
  | c :: rest => matchBareAt tag (c :: rest) || searchBare tag rest

/-! ## markers.py : the _Marker operations -/

/-- `_MarkerType` (markers.py lines 17-21). -/
inductive MarkerType
  | analyzed
  | targetPackage
  | analyzedPackage
deriving DecidableEq

/-- The full tag `f"dependahunt:{marker_type.value}"` (markers.py line 41). -/
def tagOf : MarkerType → List Char
  | .analyzed => "dependahunt:analyzed".data
  | .targetPackage => "dependahunt:target-package".data
  | .analyzedPackage => "dependahunt:analyzed-package".data

/-- `_Marker.create` (markers.py lines 57-82): a bare
`<!-- TAG -->` without data, `<!-- TAG {json} -->` with data. -/
def create (tag : List Char) : Option Payload → List Char
  | none => ("<!-- ".data ++ tag) ++ " -->".data
  | some d => (("<!-- ".data ++ tag) ++ (' ' :: jsonDumps d)) ++ " -->".data

/-- `_Marker.exists_in` (markers.py lines 84-102): either pattern found. -/
def exists_in (tag : List Char) (text : List Char) : Bool :=
  searchBare tag text || (searchData tag text).isSome

/-- `_Marker.extract` (markers.py lines 104-129): first data-pattern
match; a payload that fails to parse is caught (`JSONDecodeError`),
logged and turned into `None`. -/
def extract (tag : List Char) (text : List Char) : Option Payload :=
  match searchData tag text with
  | none => none
  | some cap =>
    match jsonLoads cap with
    | some d => some d
    | none => none

/-- `_Marker.extract` with the internally-raised `JSONDecodeError` made
explicit: the `try/except` of the source catches it and yields
`.ok none` instead of propagating the error. -/
def extractE (tag : List Char) (text : List Char) : Except String (Option Payload) :=
  match searchData tag text with
  | none => .ok none
  | some cap =>
    match jsonLoadsE cap with
    | .ok d => .ok (some d)
    | .error _ => .ok none

example :
    extract (tagOf .analyzed)
      (create (tagOf .analyzed) (some [("a".data, "b".data)])) =
      some [("a".data, "b".data)] := by decide
example : exists_in (tagOf .analyzed) (create (tagOf .analyzed) none) = true := by decide
example :
    extract (tagOf .analyzed) "x <!-- dependahunt:analyzed \x7boops --> y".data = none := by
  decide

/-! ## Helper lemmas -/

theorem cmpMain_self : ∀ l : List Int, cmpMain l l = 0 := by
  intro l
  induction l with
  | nil => rfl
  | cons a as ih => simp [cmpMain, ih]

theorem compareVerL_error_right (v1 v2 : List Char)
    (h : parse_versionL v2 = none) : compareVerL v1 v2 = .error () := by
  unfold compareVerL
  rw [h]
  cases h1 : parse_versionL v1 with
  | none => rfl
  | some val => obtain ⟨p1, pre1⟩ := val; rfl

theorem containsSub_infix_iff (hay m : List Char) :
    containsSub hay m = true ↔ m <:+: hay := by
  simp only [containsSub, List.any_eq_true, List.mem_tails,
    List.isPrefixOf_iff_prefix]
  rw [List.infix_iff_prefix_suffix]
  exact ⟨fun ⟨t, h1, h2⟩ => ⟨t, h2, h1⟩, fun ⟨t, h1, h2⟩ => ⟨t, h2, h1⟩⟩

theorem containsSub_append_right (a b m : List Char)
    (h : containsSub b m = true) : containsSub (a ++ b) m = true := by
  rw [containsSub_infix_iff] at h ⊢
  exact h.trans (List.suffix_append a b).isInfix

theorem containsSub_self_append (m r : List Char) :
    containsSub (m ++ r) m = true := by
  rw [containsSub_infix_iff]
  exact (m.prefix_append r).isInfix

theorem startsWithOp_false (op : Char) (ops c : List Char)
    (h : c.head? ≠ some op) : (op :: ops).isPrefixOf c = false := by
  cases c with
  | nil => rfl
  | cons d ds =>
    have hne : ¬ op = d := fun he => h (by simp [he])
    simp [List.isPrefixOf, hne]

theorem checkConds_skip_all (v : List Char) :
    ∀ conds : List (List Char),
      (∀ cond ∈ conds,
          cond.head? ≠ some '>' ∧ cond.head? ≠ some '<' ∧ cond.head? ≠ some '=') →
      checkConds v conds = .ok true := by
  intro conds
  induction conds with
  | nil => intro _; rfl
  | cons c cs ih =>
    intro h
    obtain ⟨h1, h2, h3⟩ := h c (List.mem_cons_self c cs)
    have hrest := fun cond hc => h cond (List.mem_cons_of_mem c hc)
    unfold checkConds
    rw [startsWithOp_false '>' [ '=' ] c h1, startsWithOp_false '<' [ '=' ] c h2,
      startsWithOp_false '>' [] c h1, startsWithOp_false '<' [] c h2,
      startsWithOp_false '=' [] c h3]
    simpa using ih hrest

/-! ## Claims C1, C2, C5, C7, C8, C10 -/

/-- C1: with a single lodash advisory (vulnerable range
`>=4.0.0,<4.17.21`, first patched version `4.17.21`, CVE
`CVE-2021-23337`), the matcher called with fromVersion `4.17.20`,
toVersion `4.17.21` returns exactly the one triple
`("CVE-2021-23337", alertId, alertUrl)`; with toVersion `4.17.20` it
returns `[]`; with fromVersion `5.0.0` it returns `[]`. -/
theorem find_cves_lodash_example (alertId : Int) (alertUrl : String) :
    find_cves_by_package_and_version "lodash" "4.17.20" "4.17.21"
        [lodashAlert alertId alertUrl] = [("CVE-2021-23337", alertId, alertUrl)] ∧
    find_cves_by_package_and_version "lodash" "4.17.20" "4.17.20"
        [lodashAlert alertId alertUrl] = [] ∧
    find_cves_by_package_and_version "lodash" "5.0.0" "4.17.21"
        [lodashAlert alertId alertUrl] = [] :=
  ⟨rfl, rfl, rfl⟩

/-- C2 counterexample: on an atom whose version text does not parse,
`version_in_range` does not return `false` — it raises a `ValueError`
(modelled as `.error ()`), contradicting the claim that the range check
fails closed and never raises. -/
theorem version_in_range_unparseable_not_false :
    version_in_range "1.0.0" ">=abc" = .error () ∧
    ¬ version_in_range "1.0.0" ">=abc" = .ok false := by
  exact ⟨by decide, by decide⟩

theorem checkConds_cons_eq (v c : List Char) (rest : List (List Char)) :
    checkConds v (c :: rest) =
      (if [ '>', '=' ].isPrefixOf c then
        match compareVerL v (pyStrip (c.drop 2)) with
        | .error e => .error e
        | .ok cv => if cv < 0 then .ok false else checkConds v rest
      else if [ '<', '=' ].isPrefixOf c then
        match compareVerL v (pyStrip (c.drop 2)) with
        | .error e => .error e
        | .ok cv => if cv > 0 then .ok false else checkConds v rest
      else if [ '>' ].isPrefixOf c then
        match compareVerL v (pyStrip (c.drop 1)) with
        | .error e => .error e
        | .ok cv => if cv ≤ 0 then .ok false else checkConds v rest
      else if [ '<' ].isPrefixOf c then
        match compareVerL v (pyStrip (c.drop 1)) with
        | .error e => .error e
        | .ok cv => if cv ≥ 0 then .ok false else checkConds v rest
      else if [ '=' ].isPrefixOf c then
        match compareVerL v (pyStrip (c.drop 1)) with
        | .error e => .error e
        | .ok cv => if cv ≠ 0 then .ok false else checkConds v rest
      else checkConds v rest) := rfl

theorem checkConds_append (v : List Char) :
    ∀ l1 l2 : List (List Char),
      checkConds v (l1 ++ l2) =
        match checkConds v l1 with
        | .ok true => checkConds v l2
        | r => r := by
  intro l1
  induction l1 with
  | nil => intro l2; rfl
  | cons c l1' ih =>
    intro l2
    rw [List.cons_append, checkConds_cons_eq v c (l1' ++ l2), checkConds_cons_eq v c l1']
    by_cases h1 : [ '>', '=' ].isPrefixOf c = true
    · rw [if_pos h1, if_pos h1]
      rcases hc : compareVerL v (pyStrip (c.drop 2)) with e | cval
      · rfl
      · show (if cval < 0 then Except.ok false else checkConds v (l1' ++ l2)) =
          match (if cval < 0 then Except.ok false else checkConds v l1') with
          | .ok true => checkConds v l2
          | r => r
        by_cases hv : cval < 0
        · rw [if_pos hv, if_pos hv]
        · rw [if_neg hv, if_neg hv]
          exact ih l2
    · rw [if_neg h1, if_neg h1]
      by_cases h2 : [ '<', '=' ].isPrefixOf c = true
      · rw [if_pos h2, if_pos h2]
        rcases hc : compareVerL v (pyStrip (c.drop 2)) with e | cval
        · rfl
        · show (if cval > 0 then Except.ok false else checkConds v (l1' ++ l2)) =
            match (if cval > 0 then Except.ok false else checkConds v l1') with
            | .ok true => checkConds v l2
            | r => r
          by_cases hv : cval > 0
          · rw [if_pos hv, if_pos hv]
          · rw [if_neg hv, if_neg hv]
            exact ih l2
      · rw [if_neg h2, if_neg h2]
        by_cases h3 : [ '>' ].isPrefixOf c = true
        · rw [if_pos h3, if_pos h3]
          rcases hc : compareVerL v (pyStrip (c.drop 1)) with e | cval
          · rfl
          · show (if cval ≤ 0 then Except.ok false else checkConds v (l1' ++ l2)) =
              match (if cval ≤ 0 then Except.ok false else checkConds v l1') with
              | .ok true => checkConds v l2
              | r => r
            by_cases hv : cval ≤ 0
            · rw [if_pos hv, if_pos hv]
            · rw [if_neg hv, if_neg hv]
              exact ih l2
        · rw [if_neg h3, if_neg h3]
          by_cases h4 : [ '<' ].isPrefixOf c = true
          · rw [if_pos h4, if_pos h4]
            rcases hc : compareVerL v (pyStrip (c.drop 1)) with e | cval
            · rfl
            · show (if cval ≥ 0 then Except.ok false else checkConds v (l1' ++ l2)) =
                match (if cval ≥ 0 then Except.ok false else checkConds v l1') with
                | .ok true => checkConds v l2
                | r => r
              by_cases hv : cval ≥ 0
              · rw [if_pos hv, if_pos hv]
              · rw [if_neg hv, if_neg hv]
                exact ih l2
          · rw [if_neg h4, if_neg h4]
            by_cases h5 : [ '=' ].isPrefixOf c = true
            · rw [if_pos h5, if_pos h5]
              rcases hc : compareVerL v (pyStrip (c.drop 1)) with e | cval
              · rfl
              · show (if cval ≠ 0 then Except.ok false else checkConds v (l1' ++ l2)) =
                  match (if cval ≠ 0 then Except.ok false else checkConds v l1') with
                  | .ok true => checkConds v l2
                  | r => r
                by_cases hv : cval ≠ 0
                · rw [if_pos hv, if_pos hv]
                · rw [if_neg hv, if_neg hv]
                  exact ih l2
            · rw [if_neg h5, if_neg h5]
              exact ih l2

theorem checkConds_error_of_operand (v : List Char) (cond : List Char)
    (rest : List (List Char)) (bad : List Char)
    (hop : condOperand cond = some bad)
    (hbad : parse_versionL bad = none) :
    checkConds v (cond :: rest) = .error () := by
  unfold condOperand at hop
  rw [checkConds_cons_eq]
  by_cases h1 : [ '>', '=' ].isPrefixOf cond = true
  · rw [if_pos h1] at hop ⊢
    rw [Option.some.inj hop, compareVerL_error_right v bad hbad]
  · rw [if_neg h1] at hop ⊢
    by_cases h2 : [ '<', '=' ].isPrefixOf cond = true
    · rw [if_pos h2] at hop ⊢
      rw [Option.some.inj hop, compareVerL_error_right v bad hbad]
    · rw [if_neg h2] at hop ⊢
      by_cases h3 : [ '>' ].isPrefixOf cond = true
      · rw [if_pos h3] at hop ⊢
        rw [Option.some.inj hop, compareVerL_error_right v bad hbad]
      · rw [if_neg h3] at hop ⊢
        by_cases h4 : [ '<' ].isPrefixOf cond = true
        · rw [if_pos h4] at hop ⊢
          rw [Option.some.inj hop, compareVerL_error_right v bad hbad]
        · rw [if_neg h4] at hop ⊢
          by_cases h5 : [ '=' ].isPrefixOf cond = true
          · rw [if_pos h5] at hop ⊢
            rw [Option.some.inj hop, compareVerL_error_right v bad hbad]
          · rw [if_neg h5] at hop
            exact Option.noConfusion hop

/-- C2 (amended): whenever range evaluation reaches an atom bearing a
recognized comparison operator whose version text fails to parse (every
earlier atom either imposed no constraint or was satisfied),
`version_in_range` raises a `ValueError` (modelled as `.error ()`)
instead of returning `false` — the unparseable constraint is never
treated as satisfied; an earlier atom that already fails the check still
short-circuits to `False` without raising; and the sole caller,
`find_cves_by_package_and_version`, catches the exception and returns
the empty match list. -/
theorem version_in_range_error_on_unparseable_atom :
    (∀ (v range_str : String) (pre : List (List Char)) (cond : List Char)
        (rest : List (List Char)) (bad : List Char),
        (splitOnChar ',' range_str.data).map pyStrip = pre ++ cond :: rest →
        checkConds v.data pre = .ok true →
        condOperand cond = some bad →
        parse_versionL bad = none →
        version_in_range v range_str = .error ()) ∧
    version_in_range "1.0.0" "<0.5,>=abc" = .ok false ∧
    (∀ (alertId : Int) (alertUrl : String),
        find_cves_by_package_and_version "lodash" "1.0.0" "2.0.0"
          [badRangeAlert alertId alertUrl] = []) := by
  refine ⟨?_, by decide, fun alertId alertUrl => rfl⟩
  intro v range_str pre cond rest bad hsplit hpre hop hbad
  unfold version_in_range
  rw [hsplit, checkConds_append v.data pre (cond :: rest), hpre]
  show checkConds v.data (cond :: rest) = .error ()
  exact checkConds_error_of_operand v.data cond rest bad hop hbad

/-- Witness for the amended C2 theorem: the unparseable `>=abc` atom is
reached after a satisfied `<=2.0` atom and the whole check errors. -/
theorem version_in_range_error_witness :
    version_in_range "1.0.0" "<=2.0,>=abc" = .error () :=
  version_in_range_error_on_unparseable_atom.1 "1.0.0" "<=2.0,>=abc"
    [ "<=2.0".data ] ">=abc".data [] "abc".data
    (by decide) (by decide) (by decide) (by decide)

/-- C5: the marker-append flow is idempotent — a document that already
contains `CVE_INFO_MARKER` is left unchanged, and running the append
flow twice equals running it once. -/
theorem add_cve_info_idempotent :
    (∀ (doc : String) (lst : List (String × Int × String)),
        has_cve_section doc = true → add_cve_info_to_pr_body doc lst = doc) ∧
    (∀ (doc : String) (lst : List (String × Int × String)),
        add_cve_info_to_pr_body (add_cve_info_to_pr_body doc lst) lst =
          add_cve_info_to_pr_body doc lst) := by
  have skip : ∀ (doc : String) (lst : List (String × Int × String)),
      has_cve_section doc = true → add_cve_info_to_pr_body doc lst = doc := by
    intro doc lst h
    unfold add_cve_info_to_pr_body
    rw [h]
    rfl
  refine ⟨skip, fun doc lst => ?_⟩
  by_cases h : has_cve_section doc = true
  · rw [skip doc lst h, skip doc lst h]
  · have hmark : has_cve_section (add_cve_info_to_pr_body doc lst) = true := by
      unfold add_cve_info_to_pr_body
      rw [Bool.not_eq_true] at h
      rw [h]
      simp only [Bool.false_eq_true, if_false]
      by_cases he : lst.isEmpty
      · rw [if_pos he]
        unfold has_cve_section
        simp only [String.data_append, List.append_assoc]
        apply containsSub_append_right
        apply containsSub_append_right
        exact containsSub_self_append _ _
      · rw [if_neg he]
        unfold has_cve_section format_cve_section
        rw [if_neg he]
        simp only [String.data_append, List.append_assoc]
        apply containsSub_append_right
        apply containsSub_append_right
        exact containsSub_self_append _ _
    exact skip _ lst hmark

/-- Witness for the C5 theorem. -/
theorem add_cve_info_idempotent_witness :
    add_cve_info_to_pr_body "body <!-- CVE_INFO_ADDED -->"
        [("CVE-2021-23337", 1, "u")] = "body <!-- CVE_INFO_ADDED -->" :=
  add_cve_info_idempotent.1 _ _ (by decide)

/-- C7: a version with no prerelease tag orders strictly after a version
with identical numeric components but with a prerelease tag; shorter
numeric parts are zero-padded; and the spec's three concrete
comparisons hold. -/
theorem compare_prerelease_and_padding :
    (∀ (v1 v2 : String) (ns : List Int) (p : List Char),
        parse_version v1 = some (ns, none) →
        parse_version v2 = some (ns, some p) →
        compare_versions v1 v2 = .ok 1) ∧
    compare_versions "4.17.20" "4.17.21" = .ok (-1) ∧
    compare_versions "1.2" "1.2.0" = .ok 0 ∧
    compare_versions "1.0.0-alpha" "1.0.0" = .ok (-1) := by
  refine ⟨?_, by decide, by decide, by decide⟩
  intro v1 v2 ns p h1 h2
  unfold compare_versions compareVerL
  rw [show parse_versionL v1.data = some (ns, none) from h1]
  rw [show parse_versionL v2.data = some (ns, some p) from h2]
  simp [cmpMain_self, cmpPre]

/-- Witness for the C7 theorem. -/
theorem compare_prerelease_and_padding_witness :
    compare_versions "1.0.0" "1.0.0-alpha" = .ok 1 :=
  compare_prerelease_and_padding.1 "1.0.0" "1.0.0-alpha" [1, 0, 0] "alpha".data
    (by decide) (by decide)

/-- C8: in the keyword fallback, severity rules are evaluated
lowest-severity-first: a text containing a low-risk keyword (and no
ultra-low keyword) is classified `低リスク` even when it also contains
the critical keyword `Critical`. -/
theorem fallback_low_beats_critical :
    ∀ s : String,
      containsSub s.data "低リスク".data = true →
      containsSub s.data "極低".data = false →
      containsSub s.data "ゼロリスク".data = false →
      containsSub s.data "ほぼゼロ".data = false →
      containsSub s.data "🟢 **極低リスク".data = false →
      containsSub s.data "Critical".data = true →
      fallback_risk_level s = "低リスク" := by
  intro s h1 h2 h3 h4 h5 hc
  unfold fallback_risk_level
  simp [h1, h2, h3, h4, h5]

/-- Witness for the C8 theorem. -/
theorem fallback_low_beats_critical_witness :
    fallback_risk_level "このPRは低リスク。Criticalな箇所はない" = "低リスク" :=
  fallback_low_beats_critical _ (by decide) (by decide) (by decide) (by decide)
    (by decide) (by decide)

/-- C10: a trimmed range atom that does not begin with any of the
operators `>=`, `<=`, `>`, `<`, `=` imposes no constraint; a range made
only of such atoms is satisfied by every version string (the version is
not even parsed). -/
theorem version_in_range_unrecognized_atoms_fail_open :
    ∀ (version range_str : String),
      (∀ cond ∈ (splitOnChar ',' range_str.data).map pyStrip,
          cond.head? ≠ some '>' ∧ cond.head? ≠ some '<' ∧ cond.head? ≠ some '=') →
      version_in_range version range_str = .ok true := by
  intro version range_str h
  unfold version_in_range
  exact checkConds_skip_all version.data _ h

/-- Witness for the C10 theorem: caret/tilde/bare atoms constrain
nothing, even for an unparseable version. -/
theorem version_in_range_fail_open_witness :
    version_in_range "not a version" "^1.2.3, ~4.5, 1.2.3" = .ok true :=
  version_in_range_unrecognized_atoms_fail_open _ _ (by decide)

/-! ## Nodup invariant of the matcher accumulation (C4) -/

theorem addCves_nodup (n : Int) (u : String) :
    ∀ (cves : List String) (acc : List (String × Int × String)),
      acc.Nodup → (addCves cves n u acc).Nodup := by
  intro cves
  induction cves with
  | nil => intro acc h; exact h
  | cons c cs ih =>
    intro acc h
    simp only [addCves, List.foldl_cons] at *
    apply ih
    split
    · exact h
    · next hmem =>
      refine List.nodup_append.mpr ⟨h, List.nodup_singleton _, ?_⟩
      intro a ha hb
      rw [List.mem_singleton] at hb
      exact hmem (hb ▸ ha)

theorem processVulns_nodup (p f t : String) (cves : List String) (n : Int)
    (u : String) :
    ∀ (vulns : List Vulnerability) (acc out : List (String × Int × String)),
      processVulns p f t cves n u vulns acc = .ok out → acc.Nodup → out.Nodup := by
  intro vulns
  induction vulns with
  | nil =>
    intro acc out h hn
    unfold processVulns at h
    exact (Except.ok.inj h) ▸ hn
  | cons v vs ih =>
    intro acc out h hn
    unfold processVulns at h
    repeat' split at h
    all_goals
      first
      | exact Except.noConfusion h
      | exact ih _ _ h hn
      | exact ih _ _ h (addCves_nodup n u cves acc hn)

theorem processAlerts_nodup (p f t : String) :
    ∀ (alerts : List Alert) (acc out : List (String × Int × String)),
      processAlerts p f t alerts acc = .ok out → acc.Nodup → out.Nodup := by
  intro alerts
  induction alerts with
  | nil =>
    intro acc out h hn
    unfold processAlerts at h
    exact (Except.ok.inj h) ▸ hn
  | cons a as ih =>
    intro acc out h hn
    unfold processAlerts at h
    repeat' split at h
    all_goals
      first
      | exact Except.noConfusion h
      | exact ih _ _ h hn
      | exact ih _ _ h
          (processVulns_nodup _ _ _ _ _ _ _ _ _ (by assumption) hn)

/-- C4: the matcher's result never contains two entries equal in all
three fields, for any input alert list; the same CVE reached through two
different alerts yields two distinct entries kept in insertion order;
and a triple already present by full equality is not re-added. -/
theorem find_cves_nodup_and_alert_distinction :
    (∀ (p f t : String) (alerts : List Alert),
        (find_cves_by_package_and_version p f t alerts).Nodup) ∧
    find_cves_by_package_and_version "lodash" "4.17.20" "4.17.21"
        [lodashAlert 1 "u1", lodashAlert 2 "u2"] =
      [("CVE-2021-23337", 1, "u1"), ("CVE-2021-23337", 2, "u2")] ∧
    find_cves_by_package_and_version "lodash" "4.17.20" "4.17.21"
        [lodashAlert 1 "u1", lodashAlert 1 "u1"] =
      [("CVE-2021-23337", 1, "u1")] := by
  refine ⟨?_, by decide, by decide⟩
  intro p f t alerts
  unfold find_cves_by_package_and_version
  split
  · exact processAlerts_nodup p f t alerts [] _ (by assumption) List.nodup_nil
  · exact List.nodup_nil

/-! ## Order theory of the comparator (C3) -/

theorem char_eq_of_toNat_eq (a b : Char) (h : a.toNat = b.toNat) : a = b :=
  Char.eq_of_val_eq (UInt32.ext h)

theorem pyStrLt_irrefl : ∀ p : List Char, pyStrLt p p = false := by
  intro p
  induction p with
  | nil => rfl
  | cons a as ih => simp [pyStrLt, ih]

theorem pyStrLt_trans :
    ∀ p q r : List Char, pyStrLt p q = true → pyStrLt q r = true →
      pyStrLt p r = true := by
  intro p
  induction p with
  | nil =>
    intro q r h1 h2
    cases q with
    | nil => simp [pyStrLt] at h1
    | cons b bs =>
      cases r with
      | nil => simp [pyStrLt] at h2
      | cons c cs => rfl
  | cons a as ih =>
    intro q r h1 h2
    cases q with
    | nil => simp [pyStrLt] at h1
    | cons b bs =>
      cases r with
      | nil => simp [pyStrLt] at h2
      | cons c cs =>
        simp only [pyStrLt] at h1 h2 ⊢
        rcases Nat.lt_trichotomy a.toNat b.toNat with hab | hab | hab
        · rcases Nat.lt_trichotomy b.toNat c.toNat with hbc | hbc | hbc
          · simp [Nat.lt_trans hab hbc]
          · simp [hbc ▸ hab]
          · simp [Nat.lt_asymm hbc, hbc] at h2
        · have heq : a = b := char_eq_of_toNat_eq a b hab
          subst heq
          simp [Nat.lt_irrefl] at h1
          rcases Nat.lt_trichotomy a.toNat c.toNat with hac | hac | hac
          · simp [hac]
          · have heq2 : a = c := char_eq_of_toNat_eq a c hac
            subst heq2
            simp [Nat.lt_irrefl] at h2 ⊢
            exact ih bs cs h1 h2
          · simp [Nat.lt_asymm hac, hac] at h2
        · simp [Nat.lt_asymm hab, hab] at h1

theorem pyStrLt_eq_of_not_lt :
    ∀ p q : List Char, pyStrLt p q = false → pyStrLt q p = false → p = q := by
  intro p
  induction p with
  | nil =>
    intro q h1 _
    cases q with
    | nil => rfl
    | cons b bs => simp [pyStrLt] at h1
  | cons a as ih =>
    intro q h1 h2
    cases q with
    | nil => simp [pyStrLt] at h2
    | cons b bs =>
      simp only [pyStrLt] at h1 h2
      rcases Nat.lt_trichotomy a.toNat b.toNat with h | h | h
      · simp [h] at h1
      · have heq : a = b := char_eq_of_toNat_eq a b h
        subst heq
        simp [Nat.lt_irrefl] at h1 h2
        rw [ih bs h1 h2]
      · simp [Nat.lt_asymm h, h] at h2

theorem cmpPre_self : ∀ e : Option (List Char), cmpPre e e = 0 := by
  intro e
  cases e with
  | none => rfl
  | some s => simp [cmpPre, pyStrLt_irrefl]

theorem cmpPre_trans :
    ∀ e1 e2 e3 : Option (List Char),
      cmpPre e1 e2 ≤ 0 → cmpPre e2 e3 ≤ 0 → cmpPre e1 e3 ≤ 0 := by
  intro e1 e2 e3 h1 h2
  match e1, e2, e3 with
  | none, none, e3 => exact h2
  | none, some _, _ => simp [cmpPre] at h1
  | some s, none, none => exact h1
  | some s, none, some t => simp [cmpPre] at h2
  | some s, some t, none => simp [cmpPre]
  | some s, some t, some u =>
    simp only [cmpPre] at h1 h2 ⊢
    by_cases hst : pyStrLt s t = true
    · by_cases htu : pyStrLt t u = true
      · simp [pyStrLt_trans s t u hst htu]
      · by_cases hut : pyStrLt u t = true
        · simp [htu, hut] at h2
        · have heq : t = u :=
            pyStrLt_eq_of_not_lt t u (by simpa using htu) (by simpa using hut)
          subst heq
          simp [hst]
    · by_cases hts : pyStrLt t s = true
      · simp [hst, hts] at h1
      · have heq : s = t :=
          pyStrLt_eq_of_not_lt s t (by simpa using hst) (by simpa using hts)
        subst heq
        exact h2

theorem cmpMain_vals :
    ∀ x y : List Int, cmpMain x y = -1 ∨ cmpMain x y = 0 ∨ cmpMain x y = 1 := by
  intro x
  induction x with
  | nil => intro y; cases y <;> exact Or.inr (Or.inl rfl)
  | cons a as ih =>
    intro y
    cases y with
    | nil => exact Or.inr (Or.inl rfl)
    | cons b bs =>
      simp only [cmpMain]
      split
      · exact Or.inl rfl
      · split
        · exact Or.inr (Or.inr rfl)
        · exact ih bs

theorem cmpMain_eq_of_zero :
    ∀ x y : List Int, x.length = y.length → cmpMain x y = 0 → x = y := by
  intro x
  induction x with
  | nil =>
    intro y hl _
    cases y with
    | nil => rfl
    | cons b bs => simp at hl
  | cons a as ih =>
    intro y hl h
    cases y with
    | nil => simp at hl
    | cons b bs =>
      simp only [cmpMain] at h
      split at h
      · exact absurd h (by decide)
      · split at h
        · exact absurd h (by decide)
        · next h1 h2 =>
          have hab : a = b := le_antisymm (not_lt.mp h2) (not_lt.mp h1)
          rw [hab, ih bs (by simpa using hl) h]

theorem cmpMain_neg_trans :
    ∀ x y z : List Int, cmpMain x y = -1 → cmpMain y z = -1 →
      cmpMain x z = -1 := by
  intro x
  induction x with
  | nil =>
    intro y z h1 _
    cases y <;> simp [cmpMain] at h1
  | cons a as ih =>
    intro y z h1 h2
    cases y with
    | nil => simp [cmpMain] at h1
    | cons b bs =>
      cases z with
      | nil => simp [cmpMain] at h2
      | cons c cs =>
        simp only [cmpMain] at h1 h2 ⊢
        rcases lt_trichotomy a b with hab | hab | hab
        · rcases lt_trichotomy b c with hbc | hbc | hbc
          · simp [lt_trans hab hbc]
          · subst hbc; simp [hab]
          · simp [lt_asymm hbc, hbc] at h2
        · subst hab
          simp [lt_irrefl] at h1 ⊢
          rcases lt_trichotomy a c with hac | hac | hac
          · simp [hac]
          · subst hac
            simp [lt_irrefl] at h2 ⊢
            exact ih bs cs h1 h2
          · simp [lt_asymm hac, hac] at h2
        · simp [lt_asymm hab, hab] at h1

/-- Zero-pad a numeric component list to length `n`. -/
def padTo (n : Nat) (l : List Int) : List Int :=
  l ++ List.replicate (n - l.length) 0

theorem padTo_length (n : Nat) (l : List Int) (h : l.length ≤ n) :
    (padTo n l).length = n := by
  simp [padTo]
  omega

theorem cmpMain_pad_zeros :
    ∀ (x y : List Int) (k : Nat), x.length = y.length →
      cmpMain (x ++ List.replicate k 0) (y ++ List.replicate k 0) = cmpMain x y := by
  intro x
  induction x with
  | nil =>
    intro y k hl
    cases y with
    | nil =>
      simp only [List.nil_append]
      rw [cmpMain_self]
      rfl
    | cons b bs => simp at hl
  | cons a as ih =>
    intro y k hl
    cases y with
    | nil => simp at hl
    | cons b bs =>
      have ih' := ih bs k (by simpa using hl)
      simp only [List.cons_append, cmpMain, List.append_eq]
      rw [ih']

theorem padTo_split (m n : Nat) (l : List Int) (h1 : l.length ≤ m) (h2 : m ≤ n) :
    padTo n l = padTo m l ++ List.replicate (n - m) 0 := by
  have he : n - l.length = (m - l.length) + (n - m) := by omega
  simp only [padTo]
  rw [he, List.replicate_add, List.append_assoc]

theorem cmpMain_padTo_le (l1 l2 : List Int) (m n : Nat)
    (h1 : l1.length ≤ m) (h2 : l2.length ≤ m) (hmn : m ≤ n) :
    cmpMain (padTo n l1) (padTo n l2) = cmpMain (padTo m l1) (padTo m l2) := by
  rw [padTo_split m n l1 h1 hmn, padTo_split m n l2 h2 hmn,
    cmpMain_pad_zeros _ _ _ (by rw [padTo_length _ _ h1, padTo_length _ _ h2])]

theorem compareVerL_eq_padTo (v1 v2 : List Char) (p1 p2 : List Int)
    (e1 e2 : Option (List Char)) (N : Nat)
    (h1 : parse_versionL v1 = some (p1, e1))
    (h2 : parse_versionL v2 = some (p2, e2))
    (hn1 : p1.length ≤ N) (hn2 : p2.length ≤ N) :
    compareVerL v1 v2 =
      .ok (if cmpMain (padTo N p1) (padTo N p2) = 0 then cmpPre e1 e2
           else cmpMain (padTo N p1) (padTo N p2)) := by
  unfold compareVerL
  rw [h1, h2]
  rw [cmpMain_padTo_le p1 p2 (max p1.length p2.length) N (le_max_left _ _)
    (le_max_right _ _) (by omega)]
  rfl

theorem compareVerL_ok_parse (v1 v2 : List Char) (x : Int)
    (h : compareVerL v1 v2 = .ok x) :
    ∃ p1 e1 p2 e2,
      parse_versionL v1 = some (p1, e1) ∧ parse_versionL v2 = some (p2, e2) := by
  unfold compareVerL at h
  rcases hh1 : parse_versionL v1 with _ | ⟨pp1, ee1⟩ <;> rw [hh1] at h
  · simp at h
  · rcases hh2 : parse_versionL v2 with _ | ⟨pp2, ee2⟩ <;> rw [hh2] at h
    · simp at h
    · exact ⟨pp1, ee1, pp2, ee2, rfl, rfl⟩

/-- C3: the comparator is reflexive on every valid version string and
transitive (comparisons that succeed with results at most `0` compose to
a comparison at most `0`). -/
theorem compare_versions_refl_trans :
    (∀ a : String, parse_version a ≠ none → compare_versions a a = .ok 0) ∧
    (∀ (a b c : String) (x y : Int),
        compare_versions a b = .ok x → x ≤ 0 →
        compare_versions b c = .ok y → y ≤ 0 →
        ∃ z, compare_versions a c = .ok z ∧ z ≤ 0) := by
  constructor
  · intro a ha
    rcases hp : parse_version a with _ | ⟨p, e⟩
    · exact absurd hp ha
    · unfold compare_versions
      rw [compareVerL_eq_padTo a.data a.data p p e e p.length hp hp le_rfl le_rfl]
      rw [cmpMain_self]
      simp [cmpPre_self]
  · intro a b c x y hab hx hbc hy
    obtain ⟨p1, e1, p2, e2, h1, h2⟩ := compareVerL_ok_parse _ _ x hab
    obtain ⟨p2', e2', p3, e3, h2', h3⟩ := compareVerL_ok_parse _ _ y hbc
    rw [h2] at h2'
    injection h2' with hpe
    injection hpe with hpeq heq2
    subst hpeq
    subst heq2
    have hN1 : p1.length ≤ max (max p1.length p2.length) p3.length := by omega
    have hN2 : p2.length ≤ max (max p1.length p2.length) p3.length := by omega
    have hN3 : p3.length ≤ max (max p1.length p2.length) p3.length := by omega
    set N := max (max p1.length p2.length) p3.length with hNdef
    unfold compare_versions at hab hbc
    rw [compareVerL_eq_padTo a.data b.data p1 p2 e1 e2 N h1 h2 hN1 hN2] at hab
    rw [compareVerL_eq_padTo b.data c.data p2 p3 e2 e3 N h2 h3 hN2 hN3] at hbc
    rw [← Except.ok.inj hab] at hx
    rw [← Except.ok.inj hbc] at hy
    unfold compare_versions
    rw [compareVerL_eq_padTo a.data c.data p1 p3 e1 e3 N h1 h3 hN1 hN3]
    refine ⟨_, rfl, ?_⟩
    have lenA : (padTo N p1).length = N := padTo_length N p1 hN1
    have lenB : (padTo N p2).length = N := padTo_length N p2 hN2
    have lenC : (padTo N p3).length = N := padTo_length N p3 hN3
    by_cases m12 : cmpMain (padTo N p1) (padTo N p2) = 0
    · have hAB : padTo N p1 = padTo N p2 :=
        cmpMain_eq_of_zero _ _ (by rw [lenA, lenB]) m12
      by_cases m23 : cmpMain (padTo N p2) (padTo N p3) = 0
      · have hBC : padTo N p2 = padTo N p3 :=
          cmpMain_eq_of_zero _ _ (by rw [lenB, lenC]) m23
        have m13 : cmpMain (padTo N p1) (padTo N p3) = 0 := by
          rw [hAB, hBC, cmpMain_self]
        rw [if_pos m13]
        rw [if_pos m12] at hx
        rw [if_pos m23] at hy
        exact cmpPre_trans e1 e2 e3 hx hy
      · have hACBC : cmpMain (padTo N p1) (padTo N p3) =
            cmpMain (padTo N p2) (padTo N p3) := by rw [hAB]
        rw [if_neg (by rw [hACBC]; exact m23), hACBC]
        rw [if_neg m23] at hy
        exact hy
    · rw [if_neg m12] at hx
      have m12' : cmpMain (padTo N p1) (padTo N p2) = -1 := by
        rcases cmpMain_vals (padTo N p1) (padTo N p2) with h | h | h
        · exact h
        · exact absurd h m12
        · rw [h] at hx; omega
      by_cases m23 : cmpMain (padTo N p2) (padTo N p3) = 0
      · have hBC : padTo N p2 = padTo N p3 :=
          cmpMain_eq_of_zero _ _ (by rw [lenB, lenC]) m23
        have m13 : cmpMain (padTo N p1) (padTo N p3) = -1 := by
          rw [← hBC]; exact m12'
        rw [if_neg (by rw [m13]; decide), m13]
        omega
      · rw [if_neg m23] at hy
        have m23' : cmpMain (padTo N p2) (padTo N p3) = -1 := by
          rcases cmpMain_vals (padTo N p2) (padTo N p3) with h | h | h
          · exact h
          · exact absurd h m23
          · rw [h] at hy; omega
        have m13 : cmpMain (padTo N p1) (padTo N p3) = -1 :=
          cmpMain_neg_trans _ _ _ m12' m23'
        rw [if_neg (by rw [m13]; decide), m13]
        omega

/-- Witness for the C3 theorem. -/
theorem compare_versions_refl_trans_witness :
    compare_versions "1.2.3" "1.2.3" = .ok 0 ∧
    ∃ z, compare_versions "1.0" "2.0.0" = .ok z ∧ z ≤ 0 :=
  ⟨compare_versions_refl_trans.1 "1.2.3" (by decide),
   compare_versions_refl_trans.2 "1.0" "1.5" "2.0.0" (-1) (-1) (by decide)
     (by decide) (by decide) (by decide)⟩

/-! ## Marker extraction error handling (C6) -/

/-- C6: `extract` never raises — the `JSONDecodeError` of a malformed
payload is caught and turned into "not found" (`none`), while a
well-formed first occurrence's payload is returned; the concrete
documents exercise a malformed first payload followed by a valid marker
(result `none`, no exception) and two valid markers (first payload wins). -/
theorem marker_extract_never_raises :
    (∀ (mt : MarkerType) (text : List Char),
        ∃ r, extractE (tagOf mt) text = .ok r) ∧
    extractE (tagOf .analyzed)
        "<!-- dependahunt:analyzed \x7boops -->\n<!-- dependahunt:analyzed \x7b\x7d -->".data =
      .ok none ∧
    extract (tagOf .analyzed)
        "<!-- dependahunt:analyzed \x7boops -->\n<!-- dependahunt:analyzed \x7b\x7d -->".data =
      none ∧
    extract (tagOf .analyzed)
        "<!-- dependahunt:analyzed \x7b\"a\": \"1\"\x7d --> <!-- dependahunt:analyzed \x7b\"b\": \"2\"\x7d -->".data =
      some [("a".data, "1".data)] := by
  refine ⟨?_, by decide, by decide, by decide⟩
  intro mt text
  rcases hs : searchData (tagOf mt) text with _ | cap
  · exact ⟨none, by unfold extractE; rw [hs]⟩
  · have hred : extractE (tagOf mt) text =
        match jsonLoadsE cap with
        | .ok d => .ok (some d)
        | .error _ => .ok none := by
      unfold extractE
      rw [hs]
    rcases hj : jsonLoadsE cap with e | d
    · exact ⟨none, by rw [hred, hj]⟩
    · exact ⟨some d, by rw [hred, hj]⟩

/-! ## Marker round trip (C9): regex-side lemmas -/

theorem wsPlusGreedy_nonws {α : Type} (k : List Char → Option α) (c : Char)
    (rest : List Char) (hc : isWs c = false) :
    wsPlusGreedy k (c :: rest) = k (c :: rest) := by
  simp [wsPlusGreedy, hc]

theorem containsSub_cons_false (c : Char) (rest m : List Char)
    (h : containsSub (c :: rest) m = false) : containsSub rest m = false := by
  simp only [containsSub, List.tails_cons, List.any_cons, Bool.or_eq_false_iff] at h
  exact h.2

theorem dropWhile_append_left_ne_nil (p : Char → Bool) :
    ∀ (a b : List Char), a.dropWhile p ≠ [] →
      (a ++ b).dropWhile p = a.dropWhile p ++ b := by
  intro a
  induction a with
  | nil => intro b h; exact absurd rfl h
  | cons c rest ih =>
    intro b h
    by_cases hc : p c = true
    · simp only [List.dropWhile_cons, hc, if_true, List.cons_append] at h ⊢
      exact ih b h
    · rw [Bool.not_eq_true] at hc
      simp [List.dropWhile_cons, hc]

theorem dropWhile_ne_nil_of_mem (p : Char → Bool) (l : List Char) (x : Char)
    (hx : x ∈ l) (hpx : p x = false) : l.dropWhile p ≠ [] := by
  intro h
  rw [List.dropWhile_eq_nil_iff] at h
  rw [h x hx] at hpx
  exact Bool.noConfusion hpx

theorem lazyCapture_cons {α : Type} (k : List Char → List Char → Option α)
    (acc : List Char) (c : Char) (rest : List Char) :
    lazyCapture k acc (c :: rest) =
      if c = '\n' then none
      else
        match k (acc ++ [c]) rest with
        | some r => some r
        | none => lazyCapture k (acc ++ [c]) rest := rfl

theorem lazyCapture_arrowK :
    ∀ (json acc : List Char),
      json ≠ [] →
      (∀ pre lc, json = pre ++ [lc] → isWs lc = false) →
      (∀ ch ∈ json, ch ≠ '\n') →
      containsSub json [ '-', '-', '>' ] = false →
      lazyCapture arrowK acc (json ++ (' ' :: '-' :: '-' :: '>' :: [])) =
        some (acc ++ json) := by
  intro json
  induction json with
  | nil => intro acc h; exact absurd rfl h
  | cons c rest ih =>
    intro acc _ hend hnl harr
    have hcnl : ¬ c = '\n' := hnl c (List.mem_cons_self c rest)
    cases rest with
    | nil =>
      simp only [List.cons_append, List.nil_append, lazyCapture]
      rw [if_neg hcnl]
      have hk : arrowK (acc ++ [c]) (' ' :: '-' :: '-' :: '>' :: []) =
          some (acc ++ [c]) := rfl
      simp only [List.append_eq, List.nil_append]
      rw [hk]
    | cons r0 rest' =>
      rw [show (c :: (r0 :: rest')) ++ (' ' :: '-' :: '-' :: '>' :: []) =
          c :: ((r0 :: rest') ++ (' ' :: '-' :: '-' :: '>' :: [])) from rfl]
      rw [lazyCapture_cons, if_neg hcnl]
      obtain ⟨pre1, lc1, hconcat⟩ :
          ∃ pre lc, r0 :: rest' = pre ++ [lc] := by
        rcases List.eq_nil_or_concat (r0 :: rest') with h | ⟨pre1, lc1, h⟩
        · exact absurd h (List.cons_ne_nil r0 rest')
        · exact ⟨pre1, lc1, by rw [h, List.concat_eq_append]⟩
      have hlc1 : isWs lc1 = false :=
        hend (c :: pre1) lc1 (by rw [List.cons_append, ← hconcat])
      have hne : (r0 :: rest').dropWhile isWs ≠ [] :=
        dropWhile_ne_nil_of_mem isWs _ lc1
          (by rw [hconcat]; exact List.mem_append_right pre1 (List.mem_singleton.mpr rfl))
          hlc1
      have hnone : arrowK (acc ++ [c])
          ((r0 :: rest') ++ (' ' :: '-' :: '-' :: '>' :: [])) = none := by
        unfold arrowK
        rw [dropWhile_append_left_ne_nil isWs (r0 :: rest') _ hne]
        rcases hrd : (r0 :: rest').dropWhile isWs with _ | ⟨d0, ds⟩
        · exact absurd hrd hne
        · rcases ds with _ | ⟨d1, ds'⟩
          · simp [List.isPrefixOf]
          · rcases ds' with _ | ⟨d2, ds2⟩
            · simp [List.isPrefixOf]
            · by_cases hp : [ '-', '-', '>' ].isPrefixOf
                  ((d0 :: d1 :: d2 :: ds2) ++ (' ' :: '-' :: '-' :: '>' :: [])) = true
              · exfalso
                rw [List.isPrefixOf_iff_prefix] at hp
                obtain ⟨t, ht⟩ := hp
                simp only [List.cons_append] at ht
                injection ht with e0 ht
                injection ht with e1 ht
                injection ht with e2 ht
                subst e0
                subst e1
                subst e2
                have hpre : [ '-', '-', '>' ] <+: ('-' :: '-' :: '>' :: ds2) :=
                  ⟨ds2, rfl⟩
                have hsuf : ('-' :: '-' :: '>' :: ds2) <:+ (c :: r0 :: rest') := by
                  rw [← hrd]
                  exact (List.dropWhile_suffix isWs).trans
                    (List.suffix_cons c (r0 :: rest'))
                have hcs : containsSub (c :: r0 :: rest') [ '-', '-', '>' ] = true := by
                  rw [containsSub_infix_iff]
                  exact List.infix_iff_prefix_suffix.mpr ⟨_, hpre, hsuf⟩
                rw [hcs] at harr
                exact Bool.noConfusion harr
              · rw [Bool.not_eq_true] at hp
                rw [hp]
                rfl
      rw [hnone]
      have hend' : ∀ pre lc, r0 :: rest' = pre ++ [lc] → isWs lc = false :=
        fun pre lc h => hend (c :: pre) lc (by rw [List.cons_append, ← h])
      have hnl' : ∀ ch ∈ r0 :: rest', ch ≠ '\n' :=
        fun ch hch => hnl ch (List.mem_cons_of_mem c hch)
      have harr' := containsSub_cons_false c (r0 :: rest') _ harr
      rw [ih (acc ++ [c]) (List.cons_ne_nil r0 rest') hend' hnl' harr']
      simp

/-! ## Marker round trip (C9): JSON round-trip lemmas -/

theorem parseStrSM_escList :
    ∀ (s rest : List Char),
      parseStrSM false (escList s ++ ('"' :: rest)) = some (s, rest) := by
  intro s
  induction s with
  | nil => intro rest; rfl
  | cons c cs ih =>
    intro rest
    by_cases hq : c = '"'
    · subst hq
      have h1 : escList ('"' :: cs) = '\\' :: '"' :: escList cs := rfl
      rw [h1]
      rw [show parseStrSM false (('\\' :: '"' :: escList cs) ++ ('"' :: rest)) =
          (parseStrSM false (escList cs ++ ('"' :: rest))).map
            (fun sr => ('"' :: sr.1, sr.2)) from rfl]
      rw [ih rest]
      rfl
    · by_cases hb : c = '\\'
      · subst hb
        have h1 : escList ('\\' :: cs) = '\\' :: '\\' :: escList cs := rfl
        rw [h1]
        rw [show parseStrSM false (('\\' :: '\\' :: escList cs) ++ ('"' :: rest)) =
            (parseStrSM false (escList cs ++ ('"' :: rest))).map
              (fun sr => ('\\' :: sr.1, sr.2)) from rfl]
        rw [ih rest]
        rfl
      · have h1 : escList (c :: cs) = c :: escList cs := by
          simp [escList, hq, hb]
        rw [h1]
        have h2 : parseStrSM false (c :: (escList cs ++ ('"' :: rest))) =
            (parseStrSM false (escList cs ++ ('"' :: rest))).map
              (fun sr => (c :: sr.1, sr.2)) := by
          simp [parseStrSM, hq, hb]
        rw [show (c :: escList cs) ++ ('"' :: rest) =
            c :: (escList cs ++ ('"' :: rest)) from rfl]
        rw [h2, ih rest]
        rfl

theorem entriesBody_length : ∀ p : Payload, p.length ≤ (entriesBody p).length := by
  intro p
  induction p with
  | nil => simp [entriesBody]
  | cons kv rest ih =>
    obtain ⟨k, v⟩ := kv
    cases rest with
    | nil =>
      simp only [entriesBody, dumpPairTail, List.length_append, List.length_cons,
        List.length_nil]
      omega
    | cons kv2 rest2 =>
      simp only [entriesBody, dumpPairTail, List.length_append, List.length_cons] at *
      omega

theorem parsePairs_entriesBody :
    ∀ (p : Payload), p ≠ [] → ∀ fuel, p.length ≤ fuel →
      parsePairs fuel (entriesBody p) = some (p, []) := by
  intro p
  induction p with
  | nil => intro h; exact absurd rfl h
  | cons kv rest ih =>
    obtain ⟨k, v⟩ := kv
    intro _ fuel hf
    cases fuel with
    | zero => simp at hf
    | succ f =>
      cases rest with
      | nil =>
        have hb : entriesBody [(k, v)] =
            escList k ++ ('"' :: (':' :: ' ' :: '"' ::
              (escList v ++ ('"' :: ('}' :: []))))) := by
          simp [entriesBody, dumpPairTail]
        rw [hb]
        simp only [parsePairs, parseStrSM_escList]
      | cons kv2 rest2 =>
        have hb : entriesBody ((k, v) :: kv2 :: rest2) =
            escList k ++ ('"' :: (':' :: ' ' :: '"' ::
              (escList v ++ ('"' :: (',' :: ' ' :: '"' ::
                entriesBody (kv2 :: rest2)))))) := by
          simp [entriesBody, dumpPairTail]
        rw [hb]
        simp only [parsePairs, parseStrSM_escList]
        rw [ih (List.cons_ne_nil _ _) f
          (by simp only [List.length_cons] at hf ⊢; omega)]

theorem jsonDumps_roundtrip : ∀ p : Payload, jsonLoads (jsonDumps p) = some p := by
  intro p
  cases p with
  | nil => rfl
  | cons kv rest =>
    rw [show jsonDumps (kv :: rest) = '{' :: '"' :: entriesBody (kv :: rest) from rfl]
    show (match parsePairs ((entriesBody (kv :: rest)).length + 1)
        (entriesBody (kv :: rest)) with
      | none => none
      | some (ps, rest3) => if rest3.all isWs then some ps else none) =
      some (kv :: rest)
    rw [parsePairs_entriesBody (kv :: rest) (List.cons_ne_nil _ _) _
      (Nat.le_succ_of_le (entriesBody_length _))]
    rfl

theorem jsonDumps_head : ∀ p : Payload, ∃ r, jsonDumps p = '{' :: r := by
  intro p
  cases p with
  | nil => exact ⟨['}'], rfl⟩
  | cons kv rest => exact ⟨'"' :: entriesBody (kv :: rest), rfl⟩

theorem entriesBody_ends :
    ∀ p : Payload, p ≠ [] → ∃ pre, entriesBody p = pre ++ ['}'] := by
  intro p
  induction p with
  | nil => intro h; exact absurd rfl h
  | cons kv rest ih =>
    obtain ⟨k, v⟩ := kv
    intro _
    cases rest with
    | nil => exact ⟨dumpPairTail k v, by simp [entriesBody]⟩
    | cons kv2 rest2 =>
      obtain ⟨pre2, hpre2⟩ := ih (List.cons_ne_nil _ _)
      refine ⟨dumpPairTail k v ++ (',' :: ' ' :: '"' :: pre2), ?_⟩
      rw [show entriesBody ((k, v) :: kv2 :: rest2) =
          dumpPairTail k v ++ (',' :: ' ' :: '"' :: entriesBody (kv2 :: rest2))
        from rfl, hpre2]
      simp [List.append_assoc]

theorem jsonDumps_ends : ∀ p : Payload, ∃ pre, jsonDumps p = pre ++ ['}'] := by
  intro p
  cases p with
  | nil => exact ⟨['{'], rfl⟩
  | cons kv rest =>
    obtain ⟨pre, hpre⟩ := entriesBody_ends (kv :: rest) (List.cons_ne_nil _ _)
    refine ⟨'{' :: '"' :: pre, ?_⟩
    rw [show jsonDumps (kv :: rest) = '{' :: '"' :: entriesBody (kv :: rest) from rfl,
      hpre]
    rfl

/-! ## Marker round trip (C9): assembly -/

theorem wsPlusGreedy_append {α : Type} (k : List Char → Option α) (t0 : Char)
    (ttail rest : List Char) (ht0 : isWs t0 = false) :
    wsPlusGreedy k ((t0 :: ttail) ++ rest) = k ((t0 :: ttail) ++ rest) := by
  rw [List.cons_append]
  exact wsPlusGreedy_nonws k t0 (ttail ++ rest) ht0

theorem create_data_cons (tag : List Char) (d : Payload) :
    create tag (some d) =
      '<' :: '!' :: '-' :: '-' :: ' ' ::
        (tag ++ (' ' :: (jsonDumps d ++ (' ' :: '-' :: '-' :: '>' :: [])))) := by
  show (("<!-- ".data ++ tag) ++ (' ' :: jsonDumps d)) ++ " -->".data = _
  rw [show "<!-- ".data = ['<', '!', '-', '-', ' '] from rfl,
    show " -->".data = [' ', '-', '-', '>'] from rfl]
  simp [List.append_assoc]

theorem matchDataAt_create (tag : List Char) (t0 : Char) (ttail : List Char)
    (htag : tag = t0 :: ttail) (ht0 : isWs t0 = false)
    (json : List Char) (j0 : Char) (jrest : List Char)
    (hjhead : json = j0 :: jrest) (hj0 : isWs j0 = false)
    (hend : ∀ pre lc, json = pre ++ [lc] → isWs lc = false)
    (hnl : ∀ ch ∈ json, ch ≠ '\n')
    (harr : containsSub json [ '-', '-', '>' ] = false) :
    matchDataAt tag
      ('<' :: '!' :: '-' :: '-' :: ' ' ::
        (tag ++ (' ' :: (json ++ (' ' :: '-' :: '-' :: '>' :: []))))) = some json := by
  subst htag
  subst hjhead
  show wsPlusGreedy
      (fun s1 =>
        if (t0 :: ttail).isPrefixOf s1 then
          wsPlusThen (fun s3 => lazyCapture arrowK [] s3)
            (s1.drop (t0 :: ttail).length)
        else none)
      ((t0 :: ttail) ++ (' ' :: ((j0 :: jrest) ++ (' ' :: '-' :: '-' :: '>' :: [])))) =
    some (j0 :: jrest)
  rw [wsPlusGreedy_append _ t0 ttail _ ht0]
  show (if (t0 :: ttail).isPrefixOf
        ((t0 :: ttail) ++ (' ' :: ((j0 :: jrest) ++ (' ' :: '-' :: '-' :: '>' :: [])))) then
      wsPlusThen (fun s3 => lazyCapture arrowK [] s3)
        (((t0 :: ttail) ++
          (' ' :: ((j0 :: jrest) ++ (' ' :: '-' :: '-' :: '>' :: [])))).drop
          (t0 :: ttail).length)
    else none) = some (j0 :: jrest)
  rw [if_pos (List.isPrefixOf_iff_prefix.mpr (List.prefix_append _ _))]
  rw [List.drop_left]
  show wsPlusGreedy (fun s3 => lazyCapture arrowK [] s3)
      ((j0 :: jrest) ++ (' ' :: '-' :: '-' :: '>' :: [])) = some (j0 :: jrest)
  rw [wsPlusGreedy_append _ j0 jrest _ hj0]
  have h := lazyCapture_arrowK (j0 :: jrest) [] (List.cons_ne_nil _ _) hend hnl harr
  simpa using h

/-- C9: round trip of the marker protocol — for every marker tag and
every payload whose compact JSON serialization contains no newline and
no `-->` substring, `extract` applied to `create`'s output returns
exactly the payload, and `exists_in` holds on it. -/
theorem marker_roundtrip :
    ∀ (mt : MarkerType) (p : Payload),
      '\n' ∉ jsonDumps p →
      containsSub (jsonDumps p) [ '-', '-', '>' ] = false →
      extract (tagOf mt) (create (tagOf mt) (some p)) = some p ∧
      exists_in (tagOf mt) (create (tagOf mt) (some p)) = true := by
  intro mt p hnl harr
  obtain ⟨jr, hjhead⟩ := jsonDumps_head p
  obtain ⟨jpre, hjend⟩ := jsonDumps_ends p
  obtain ⟨ttail, httag⟩ : ∃ ttail, tagOf mt = 'd' :: ttail := by
    cases mt
    · exact ⟨_, rfl⟩
    · exact ⟨_, rfl⟩
    · exact ⟨_, rfl⟩
  have hend : ∀ pre lc, jsonDumps p = pre ++ [lc] → isWs lc = false := by
    intro pre lc h
    have heq : pre ++ [lc] = jpre ++ ['}'] := h.symm.trans hjend
    have hlast : some lc = some '}' := by
      have h2 := congrArg (fun l => l.getLast?) heq
      simpa [List.getLast?_concat] using h2
    rw [Option.some.inj hlast]
    rfl
  have hnl' : ∀ ch ∈ jsonDumps p, ch ≠ '\n' := fun ch hch he => hnl (he ▸ hch)
  have hmatch := matchDataAt_create (tagOf mt) 'd' ttail httag rfl
    (jsonDumps p) '{' jr hjhead rfl hend hnl' harr
  have hsearch : searchData (tagOf mt) (create (tagOf mt) (some p)) =
      some (jsonDumps p) := by
    rw [create_data_cons]
    simp only [searchData]
    rw [hmatch]
  constructor
  · show (match searchData (tagOf mt) (create (tagOf mt) (some p)) with
      | none => none
      | some cap =>
        match jsonLoads cap with
        | some d => some d
        | none => none) = some p
    rw [hsearch]
    show (match jsonLoads (jsonDumps p) with
      | some d => some d
      | none => none) = some p
    rw [jsonDumps_roundtrip]
  · unfold exists_in
    rw [hsearch]
    simp

/-- Witness for the C9 theorem. -/
theorem marker_roundtrip_witness :
    extract (tagOf .analyzed)
        (create (tagOf .analyzed) (some [("a".data, "b".data)])) =
      some [("a".data, "b".data)] ∧
    exists_in (tagOf .analyzed)
        (create (tagOf .analyzed) (some [("a".data, "b".data)])) = true :=
  marker_roundtrip .analyzed [("a".data, "b".data)] (by decide) (by decide)
